import Mathlib

/-!
Shallow embedding of the wave-viewer repository (src/src/data/data.py,
src/src/waveform/waveform.py, src/src/waveview/waveview.py,
src/src/screen/screen.py) and proofs settling the frozen claims about it.

Python `int` is modelled as `ℤ`, Python `float` arithmetic as `ℚ`
(the exact value of the real arithmetic the source performs; every
boundary case used in a theorem below is far enough from a double
rounding step that the float and rational computations agree), byte
strings as `List ℕ` (one byte value per element), and raised exceptions
as `Except PyError`.
-/

namespace WaveViewer

/-- The exceptions the source can raise, one constructor per Python
exception class that can escape the modelled code:
`struct.error` (short read in `struct.unpack`), `KeyError` (missing
entry in `_STRUCT_UNPACK_FORMAT`), `IndexError` (list index out of
range), `ZeroDivisionError` (division by zero), `ValueError` (slice
step zero), `waveform.WaveformError`, `waveview.WaveViewError`,
`waveview.ViewContentError`. -/
inductive PyError where
  | structError
  | keyError
  | indexError
  | zeroDivisionError
  | valueError
  | waveformError
  | waveViewError
  | viewContentError
  deriving DecidableEq, Repr

/-- Python `int(x)` applied to a float/rational: truncation toward zero. -/
def pyInt (q : ℚ) : ℤ := if q < 0 then ⌈q⌉ else ⌊q⌋

/-- Python list read `l[i]`: nonnegative indices from the front,
negative indices from the back, `IndexError` (`none`) outside. -/
def pyListGet {α : Type} (l : List α) (i : ℤ) : Option α :=
  if 0 ≤ i ∧ i < l.length then l.get? i.toNat
  else if -(l.length : ℤ) ≤ i ∧ i < 0 then l.get? (i + l.length).toNat
  else none

/-- Python list write `l[i] = v`: same index rule as `pyListGet`,
returning the updated list or `IndexError` (`none`). -/
def pyListSet {α : Type} (l : List α) (i : ℤ) (v : α) : Option (List α) :=
  if 0 ≤ i ∧ i < l.length then some (l.set i.toNat v)
  else if -(l.length : ℤ) ≤ i ∧ i < 0 then some (l.set (i + l.length).toNat v)
  else none

/-! ## data.py -/

/-- `data.DataFormat`: channel count, sample width in bits, sampling
rate.  The struct format string is determined by the two supported
table entries; see `mkDataFormat`. -/
structure PyDataFormat where
  numChannels : ℕ
  lengthBits : ℕ
  samplingRate : ℕ
  deriving DecidableEq, Repr

/-- `DataFormat.__init__`: looks up `(length_bits, SIGNED,
LITTLE_ENDIAN)` in `_STRUCT_UNPACK_FORMAT`, whose only keys are 16 and
32 bits; any other width raises `KeyError`. -/
def mkDataFormat (numChannels lengthBits samplingRate : ℕ) :
    Except PyError PyDataFormat :=
  if lengthBits = 16 ∨ lengthBits = 32 then
    .ok ⟨numChannels, lengthBits, samplingRate⟩
  else .error .keyError

/-- `DataFormat.data_range`: `(-(1 << (bits - 1)), (1 << (bits - 1)) - 1)`. -/
def dataRange (fmt : PyDataFormat) : ℤ × ℤ :=
  (-(2 ^ (fmt.lengthBits - 1) : ℤ), (2 ^ (fmt.lengthBits - 1) : ℤ) - 1)

/-- Bytes per sample: `self.data_format.length_bits >> 3`. -/
def bytesPerSample (fmt : PyDataFormat) : ℕ := fmt.lengthBits >>> 3

/-- `struct.unpack('<h', ·)`: two little-endian bytes as a signed
16-bit integer. -/
def decodeS16LE (bs : List ℕ) : ℤ :=
  let u : ℕ := bs.getD 0 0 + 2 ^ 8 * bs.getD 1 0
  if 2 ^ 15 ≤ u then (u : ℤ) - 2 ^ 16 else (u : ℤ)

/-- `struct.unpack('<i', ·)`: four little-endian bytes as a signed
32-bit integer. -/
def decodeS32LE (bs : List ℕ) : ℤ :=
  let u : ℕ := bs.getD 0 0 + 2 ^ 8 * bs.getD 1 0 + 2 ^ 16 * bs.getD 2 0 +
    2 ^ 24 * bs.getD 3 0
  if 2 ^ 31 ≤ u then (u : ℤ) - 2 ^ 32 else (u : ℤ)

/-- Dispatch on the struct format chosen by `DataFormat.__init__`. -/
def structUnpack (bits : ℕ) (bs : List ℕ) : ℤ :=
  if bits = 32 then decodeS32LE bs else decodeS16LE bs

/-- The read loop of `RawData._read_binary` / `_read_one_sample`:
`handle.read(k)` returns `''` exactly at end of data (loop ends), a
full `k`-byte chunk otherwise unless fewer than `k` bytes remain, in
which case `struct.unpack` raises `struct.error`.  `read(0)` returns
`''` immediately, ending the loop with no samples. -/
def readSamples (k bits : ℕ) (bytes : List ℕ) : Except PyError (List ℤ) :=
  if k = 0 then .ok []
  else if bytes.isEmpty then .ok []
  else if bytes.length < k then .error .structError
  else
    match readSamples k bits (bytes.drop k) with
    | .ok rest => .ok (structUnpack bits (bytes.take k) :: rest)
    | .error e => .error e
termination_by bytes.length
decreasing_by
  simp only [List.length_drop]
  rcases bytes with _ | ⟨b, bs⟩
  · simp_all
  · simp only [List.length_cons]
    omega

/-- The round-robin channel assignment of `RawData._read_binary`:
sample number `j` (0-based) is appended to channel `j % num_channels`,
so channel `i` receives, in order, the samples whose index is `≡ i`. -/
def fillChannels (nc : ℕ) (samples : List ℤ) : List (List ℤ) :=
  (List.range nc).map fun i =>
    ((samples.enum.filter fun p => p.1 % nc = i).map fun p => p.2)

/-- `data.RawData` after a successful `__init__`. -/
structure PyRawData where
  dataFormat : PyDataFormat
  channelData : List (List ℤ)
  numOfSamples : ℕ
  deriving DecidableEq, Repr

/-- `RawData.__init__`: decode all samples round-robin, then
`num_of_samples = len(channel_data[0])`.  With zero channels the
Python code raises `IndexError` (at the first append, or at
`channel_data[0]` for an empty buffer). -/
def mkRawData (binary : List ℕ) (fmt : PyDataFormat) :
    Except PyError PyRawData :=
  if fmt.numChannels = 0 then .error .indexError
  else
    match readSamples (bytesPerSample fmt) fmt.lengthBits binary with
    | .error e => .error e
    | .ok samples =>
      let channels := fillChannels fmt.numChannels samples
      .ok ⟨fmt, channels, (channels.headD []).length⟩

/-- `data.OneChannelRawData`: one channel's samples plus sampling rate
and format-derived value range. -/
structure OneChannelData where
  samples : List ℤ
  samplingRate : ℕ
  pyDataRange : ℤ × ℤ
  deriving DecidableEq, Repr

/-- `OneChannelRawData.__init__`: projects channel `channel_index`
(`IndexError` when out of range, Python negative indexing included). -/
def mkOneChannelData (raw : PyRawData) (channelIndex : ℤ) :
    Except PyError OneChannelData :=
  match pyListGet raw.channelData channelIndex with
  | none => .error .indexError
  | some samples =>
    .ok ⟨samples, raw.dataFormat.samplingRate, dataRange raw.dataFormat⟩

/-! ## waveform.py -/

/-- `Waveform._quantize_one_value`: `int(value / quantization_factor +
(0.5 if value > 0 else -0.5))`, `int` truncating toward zero. -/
def quantizeOneValue (qf : ℚ) (v : ℤ) : ℤ :=
  pyInt ((v : ℚ) / qf + (if 0 < v then (1 : ℚ) / 2 else -(1 : ℚ) / 2))

/-- `waveform.Waveform` after a successful `__init__`. -/
structure WaveformData where
  numberOfSubsamples : ℕ
  numberOfLevels : ℤ
  downSampleFactor : ℕ
  quantizationFactor : ℚ
  waveSamples : List ℤ
  deriving DecidableEq, Repr

/-- `Waveform.__init__` in source order.
`_set_number_of_subsamples` computes `down_sample_factor =
int(len(samples) / p)` (`ZeroDivisionError` when `p = 0`);
`_set_number_of_levels` decrements an even level count by one and
computes `quantization_factor = float(full_range) / (levels - 1)`
(`ZeroDivisionError` when the adjusted levels are 1);
`_down_sample` takes `samples[::down_sample_factor]` (`ValueError`
when the stride is 0, i.e. `p > len(samples)`), drops the last element
when the selection has exactly `p + 1` elements, and raises
`WaveformError` when it then differs from `p`; `_quantize` maps
`_quantize_one_value` over the selection. -/
def buildWaveform (raw : OneChannelData) (p : ℕ) (levels : ℤ) :
    Except PyError WaveformData :=
  let n := raw.samples.length
  if p = 0 then .error .zeroDivisionError
  else
    let f := n / p
    let adjLevels := if levels % 2 = 0 then levels - 1 else levels
    let intervals := adjLevels - 1
    if intervals = 0 then .error .zeroDivisionError
    else
      let fullValueRange := raw.pyDataRange.2 - raw.pyDataRange.1
      let qf : ℚ := (fullValueRange : ℚ) / (intervals : ℚ)
      if f = 0 then .error .valueError
      else
        let sub := (List.range ((n + f - 1) / f)).map fun i =>
          raw.samples.getD (i * f) 0
        let sub2 := if sub.length = p + 1 then sub.dropLast else sub
        if sub2.length = p then
          .ok ⟨p, adjLevels, f, qf, sub2.map (quantizeOneValue qf)⟩
        else .error .waveformError

/-! ## waveview.py -/

/-- `ViewContent._view_to_storage`: `(half_height - view_y, view_x)`. -/
def viewToStorage (halfHeight viewX viewY : ℤ) : ℤ × ℤ :=
  (halfHeight - viewY, viewX)

/-- `ViewContent.clear`: a `height × width` grid of `' '`. -/
def clearGrid (width height : ℕ) : List (List Char) :=
  List.replicate height (List.replicate width ' ')

/-- `ViewContent.set`: `storage[row][col] = value` at the transformed
coordinate, `none` modelling `IndexError`. -/
def vcSet (g : List (List Char)) (halfHeight viewX viewY : ℤ) (v : Char) :
    Option (List (List Char)) :=
  let rc := viewToStorage halfHeight viewX viewY
  (pyListGet g rc.1).bind fun row =>
    (pyListSet row rc.2 v).bind fun row2 => pyListSet g rc.1 row2

/-- `ViewContent.get`: `storage[row][col]` at the transformed
coordinate, `none` modelling `IndexError`. -/
def vcGet (g : List (List Char)) (halfHeight viewX viewY : ℤ) : Option Char :=
  let rc := viewToStorage halfHeight viewX viewY
  (pyListGet g rc.1).bind fun row => pyListGet row rc.2

/-- The loop body of `WaveView.draw_view`, iterating over the pending
view columns: `sample_x = view_x + start_x`; columns left of the data
are skipped, the loop breaks at the first column at or past the end of
the samples, points more than `half_height` from `start_y` are
skipped, and every other column marks `(view_x, samples[sample_x] -
start_y)` with `'*'`. -/
def drawLoop (samples : List ℤ) (halfHeight : ℕ) (startX startY : ℤ) :
    List ℕ → List (List Char) → Except PyError (List (List Char))
  | [], g => .ok g
  | viewX :: rest, g =>
    let sampleX : ℤ := (viewX : ℤ) + startX
    if sampleX < 0 then drawLoop samples halfHeight startX startY rest g
    else if (samples.length : ℤ) ≤ sampleX then .ok g
    else
      let viewY : ℤ := samples.getD sampleX.toNat 0 - startY
      if (halfHeight : ℤ) < |viewY| then
        drawLoop samples halfHeight startX startY rest g
      else
        match vcSet g (halfHeight : ℤ) (viewX : ℤ) viewY '*' with
        | some g2 => drawLoop samples halfHeight startX startY rest g2
        | none => .error .indexError

/-- `WaveView.__init__` (odd-height check, `half_height = height >> 1`,
fresh cleared `ViewContent`) followed by `draw_view(start_x, start_y)`;
the result is the grid `get_view` returns. -/
def drawView (samples : List ℤ) (width height : ℕ) (startX startY : ℤ) :
    Except PyError (List (List Char)) :=
  if height % 2 = 0 then .error .waveViewError
  else
    drawLoop samples (height >>> 1) startX startY (List.range width)
      (clearGrid width height)

/-- Reading one storage cell of the grid (row major, as in
`ViewContent._storage`); out-of-range reads default to blank. -/
def cellAt (g : List (List Char)) (r c : ℕ) : Char :=
  (g.getD r []).getD c ' '

/-! ## screen.py (WaveViewDisplay) -/

/-- `screen.ScaleDirection`. -/
inductive ScaleDirection where
  | up
  | down
  deriving DecidableEq, Repr

/-- `WaveViewDisplay._get_time_scale`: `1 + level * 0.1`. -/
def timeScale (level : ℤ) : ℚ := 1 + level * (1 / 10)

/-- `WaveViewDisplay._get_value_scale`: `1 + level * 0.1`. -/
def valueScale (level : ℤ) : ℚ := 1 + level * (1 / 10)

/-- The mutable state of a `screen.WaveViewDisplay`: the raw channel
data and draw size it was built with, the zoom levels and the derived
sample length and quantize levels, the start point in sample
coordinate, the current `Waveform`, and the current view content. -/
structure WVDisplay where
  rawData : OneChannelData
  width : ℕ
  height : ℕ
  timeLevel : ℤ
  sampleLength : ℤ
  valueLevel : ℤ
  quantizeLevels : ℤ
  startX : ℤ
  startY : ℤ
  wave : WaveformData
  viewContent : List (List Char)
  deriving DecidableEq, Repr

/-- `WaveViewDisplay.change_time_level`.  Scaling down at time level 0
only logs a warning and returns; a new sample length
`int(new_time_scale * width)` exceeding the raw sample count only logs
a warning and returns; otherwise the level, sample length and
`start_x = int(start_x / current_time_scale * new_time_scale)` are
updated and the `Waveform` and `WaveView` are rebuilt and redrawn
(either rebuild propagates its exceptions). -/
def changeTimeLevel (d : WVDisplay) (dir : ScaleDirection) :
    Except PyError WVDisplay :=
  let newLevelOpt : Option ℤ :=
    match dir with
    | .up => some (d.timeLevel + 1)
    | .down => if d.timeLevel = 0 then none else some (d.timeLevel - 1)
  match newLevelOpt with
  | none => .ok d
  | some newTimeLevel =>
    let currentTimeScale := timeScale d.timeLevel
    let newTimeScale := timeScale newTimeLevel
    let newSampleLength := pyInt (newTimeScale * (d.width : ℚ))
    if (d.rawData.samples.length : ℤ) < newSampleLength then .ok d
    else
      let newStartX := pyInt ((d.startX : ℚ) / currentTimeScale * newTimeScale)
      match buildWaveform d.rawData newSampleLength.toNat d.quantizeLevels with
      | .error e => .error e
      | .ok wave =>
        match drawView wave.waveSamples d.width d.height newStartX d.startY with
        | .error e => .error e
        | .ok grid =>
          .ok { d with
                timeLevel := newTimeLevel
                sampleLength := newSampleLength
                startX := newStartX
                wave := wave
                viewContent := grid }

/-- `WaveViewDisplay.change_value_level`.  Scaling down at value level
0 only logs a warning and returns; otherwise the level, quantize
levels `int(new_value_scale * height)` and `start_y = int(start_y /
current_value_scale * new_value_scale)` are updated and the `Waveform`
and `WaveView` are rebuilt and redrawn. -/
def changeValueLevel (d : WVDisplay) (dir : ScaleDirection) :
    Except PyError WVDisplay :=
  let newLevelOpt : Option ℤ :=
    match dir with
    | .up => some (d.valueLevel + 1)
    | .down => if d.valueLevel = 0 then none else some (d.valueLevel - 1)
  match newLevelOpt with
  | none => .ok d
  | some newValueLevel =>
    let currentValueScale := valueScale d.valueLevel
    let newValueScale := valueScale newValueLevel
    let newQuantizeLevels := pyInt (newValueScale * (d.height : ℚ))
    let newStartY := pyInt ((d.startY : ℚ) / currentValueScale * newValueScale)
    match buildWaveform d.rawData d.sampleLength.toNat newQuantizeLevels with
    | .error e => .error e
    | .ok wave =>
      match drawView wave.waveSamples d.width d.height d.startX newStartY with
      | .error e => .error e
      | .ok grid =>
        .ok { d with
              valueLevel := newValueLevel
              quantizeLevels := newQuantizeLevels
              startY := newStartY
              wave := wave
              viewContent := grid }

/-- Modelled from the spec: `WaveView.get_level_range`, called from
`WaveViewDisplay.get_value_range` (screen.py line 572) but absent from
src/src/waveview/waveview.py.  The spec defines it as
`visible_value_range(start_y) = (start_y - half_height, start_y +
half_height)`. -/
def getLevelRange (halfHeight startY : ℤ) : ℤ × ℤ :=
  (startY - halfHeight, startY + halfHeight)

/-- Modelled from the spec: `WaveView.get_time_index_range`, called
from `WaveViewDisplay.get_time_range` (screen.py line 584) but absent
from src/src/waveview/waveview.py.  The spec defines it as
`visible_index_range(start_x) = (max(start_x, 0), min(start_x + width
- 1, len(samples) - 1))`. -/
def getTimeIndexRange (width samplesLength : ℕ) (startX : ℤ) : ℤ × ℤ :=
  (max startX 0, min (startX + width - 1) ((samplesLength : ℤ) - 1))

/-- `WaveViewDisplay.get_value_range`: the level range at the current
`start_y` scaled by the waveform's quantization factor. -/
def getValueRange (d : WVDisplay) : ℚ × ℚ :=
  let mm := getLevelRange ((d.height >>> 1 : ℕ) : ℤ) d.startY
  ((mm.1 : ℚ) * d.wave.quantizationFactor, (mm.2 : ℚ) * d.wave.quantizationFactor)

/-- `WaveViewDisplay.get_time_range`: the visible index range at the
current `start_x` scaled by the down-sample factor and divided by the
sampling rate. -/
def getTimeRange (d : WVDisplay) : ℚ × ℚ :=
  let mm := getTimeIndexRange d.width d.wave.waveSamples.length d.startX
  let scale : ℤ := (d.wave.downSampleFactor : ℤ)
  (((mm.1 * scale : ℤ) : ℚ) / (d.rawData.samplingRate : ℚ),
   ((mm.2 * scale : ℤ) : ℚ) / (d.rawData.samplingRate : ℚ))

/-! ## Decidability of result comparison -/

instance instDecEqExcept {ε α : Type} [DecidableEq ε] [DecidableEq α] :
    DecidableEq (Except ε α) := fun a b =>
  match a, b with
  | .ok x, .ok y =>
    if h : x = y then isTrue (by rw [h])
    else isFalse (by intro hc; cases hc; exact h rfl)
  | .error x, .error y =>
    if h : x = y then isTrue (by rw [h])
    else isFalse (by intro hc; cases hc; exact h rfl)
  | .ok _, .error _ => isFalse (by intro hc; cases hc)
  | .error _, .ok _ => isFalse (by intro hc; cases hc)

/-! ## Claim C3: the quantization rounding policy -/

/-- C3, counterexample.  The claim states `q(v) = floor(v /
quantization_factor - 0.5)` for `v ≤ 0`; at `v = 0` with quantization
factor 5 the code computes `int(0/5 - 0.5) = int(-0.5) = 0` (Python
`int` truncates toward zero) while the claimed floor is `-1`. -/
theorem C3_counterexample :
    quantizeOneValue 5 0 = 0 ∧ ⌊(0 : ℚ) / 5 - 1 / 2⌋ = -1 := by
  constructor
  · unfold quantizeOneValue pyInt
    norm_num
  · norm_num

/-- C3, amended: for every integer sample value `v` and every positive
quantization factor, the quantized value is `floor(v / qf + 0.5)` when
`v > 0` and `ceil(v / qf - 0.5)` when `v ≤ 0` (round-half-away-from-
zero; Python `int()` truncates toward zero, which on the nonpositive
branch is the ceiling, not the floor). -/
theorem C3_quantize_half_away_from_zero (v : ℤ) (qf : ℚ) (hqf : 0 < qf) :
    quantizeOneValue qf v =
      if 0 < v then ⌊(v : ℚ) / qf + 1 / 2⌋ else ⌈(v : ℚ) / qf - 1 / 2⌉ := by
  unfold quantizeOneValue pyInt
  by_cases hv : 0 < v
  · have hpos : (0 : ℚ) < (v : ℚ) / qf := div_pos (by exact_mod_cast hv) hqf
    rw [if_pos hv, if_pos hv, if_neg (by linarith)]
  · have hnp : (v : ℚ) / qf ≤ 0 :=
      div_nonpos_of_nonpos_of_nonneg (by exact_mod_cast not_lt.1 hv)
        (le_of_lt hqf)
    have harith : (v : ℚ) / qf + -1 / 2 = (v : ℚ) / qf - 1 / 2 := by ring
    rw [if_neg hv, if_neg hv, harith, if_pos (by linarith)]

/-- C3, witness for the amended theorem at `v = 7` with the
quantization factor a 16-bit range and 5 levels produce. -/
theorem C3_witness :
    (0 : ℚ) < 65535 / 4 ∧
      quantizeOneValue (65535 / 4) 7 =
        if 0 < (7 : ℤ) then ⌊(7 : ℚ) / (65535 / 4) + 1 / 2⌋
        else ⌈(7 : ℚ) / (65535 / 4) - 1 / 2⌉ :=
  ⟨by norm_num, C3_quantize_half_away_from_zero 7 (65535 / 4) (by norm_num)⟩

/-! ## Claim C8: fewer than 2 effective levels is fatal -/

/-- C8: constructing a `Waveform` whose adjusted number of levels is 1
(requested levels 1, or 2 decremented to 1), i.e. zero intervals,
fails: `_compute_quantization_factor` divides the full value range by
zero intervals, raising `ZeroDivisionError` — the failure the spec's
error taxonomy names `InvalidLevelsError`. -/
theorem C8_zero_intervals_fatal (raw : OneChannelData) (p : ℕ) (levels : ℤ)
    (hp : p ≠ 0)
    (hlev : (if levels % 2 = 0 then levels - 1 else levels) = 1) :
    buildWaveform raw p levels = .error .zeroDivisionError := by
  simp only [buildWaveform, hlev, if_neg hp]
  norm_num

/-- C8, witness at requested levels 2 (decremented to 1). -/
theorem C8_witness :
    (3 : ℕ) ≠ 0 ∧ (if (2 : ℤ) % 2 = 0 then (2 : ℤ) - 1 else 2) = 1 ∧
      buildWaveform ⟨[0, 0, 0], 48000, (-32768, 32767)⟩ 3 2 =
        .error .zeroDivisionError :=
  ⟨by decide, by decide,
    C8_zero_intervals_fatal ⟨[0, 0, 0], 48000, (-32768, 32767)⟩ 3 2
      (by decide) (by decide)⟩

/-! ## Claim C1: down-sample selection length -/

/-- C1, counterexample.  With 11 samples and `requested_points = 4 ∈
[1, 11]` the stride is `11 / 4 = 2`, the selection `[0, 2, 4, 6, 8,
10]` has 6 elements — neither 4 nor 5 — and `_down_sample` raises
`WaveformError` instead of succeeding. -/
theorem C1_counterexample :
    buildWaveform ⟨[0, 1, 2, 3, 4, 5, 6, 7, 8, 9, 10], 48000,
        (-32768, 32767)⟩ 4 5 =
      .error .waveformError := by decide

/-- C1, amended: for every `requested_points` in `[1, total_samples]`
(and any level count with at least one interval, so that level
adjustment does not fail first), construction succeeds with
`len(wave_samples) = requested_points` PROVIDED the stride selection
at `f = total // p` has at most `p + 1` elements; the selection always
has at least `p` elements, so the one tolerated off-by-one drop then
yields exactly `p`.  (For other selection lengths — e.g. 11 samples,
4 points — construction raises `WaveformError`.) -/
theorem C1_wave_samples_length (raw : OneChannelData) (p : ℕ) (levels : ℤ)
    (hp1 : 1 ≤ p) (hpn : p ≤ raw.samples.length)
    (hlev : (if levels % 2 = 0 then levels - 1 else levels) ≠ 1)
    (hsel : (raw.samples.length + raw.samples.length / p - 1) /
        (raw.samples.length / p) ≤ p + 1) :
    ∃ w, buildWaveform raw p levels = .ok w ∧ w.waveSamples.length = p := by
  have hp0 : p ≠ 0 := by omega
  have hf1 : 1 ≤ raw.samples.length / p := (Nat.one_le_div_iff (by omega)).2 hpn
  have hint : ((if levels % 2 = 0 then levels - 1 else levels) - 1 : ℤ) ≠ 0 := by
    intro h
    exact hlev (by omega)
  have hmul : raw.samples.length / p * p ≤ raw.samples.length :=
    Nat.div_mul_le_self _ _
  have hge : p ≤ (raw.samples.length + raw.samples.length / p - 1) /
      (raw.samples.length / p) := by
    rw [Nat.le_div_iff_mul_le (by omega)]
    have hcomm : p * (raw.samples.length / p) =
        raw.samples.length / p * p := Nat.mul_comm _ _
    omega
  simp only [buildWaveform, if_neg hp0, if_neg hint, if_neg (by omega :
    ¬ raw.samples.length / p = 0)]
  set n := raw.samples.length with hn
  set f := n / p with hf
  set sub := (List.range ((n + f - 1) / f)).map
    (fun i => raw.samples.getD (i * f) 0) with hsub
  have hsublen : sub.length = (n + f - 1) / f := by simp [hsub]
  by_cases hcase : sub.length = p + 1
  · rw [if_pos hcase]
    have hdl : sub.dropLast.length = p := by
      rw [List.length_dropLast, hcase]
      omega
    rw [if_pos hdl]
    exact ⟨_, rfl, by simpa using hdl⟩
  · rw [if_neg hcase]
    have hlen : sub.length = p := by omega
    rw [if_pos hlen]
    exact ⟨_, rfl, by simpa using hlen⟩

/-- C1, witness: 12 samples, 4 requested points (stride 3, selection
length 4), 5 levels. -/
theorem C1_witness :
    (buildWaveform ⟨[0, 1, 2, 3, 4, 5, 6, 7, 8, 9, 10, 11], 48000,
        (-32768, 32767)⟩ 4 5).map (fun w => w.waveSamples.length) =
      .ok 4 := by
  obtain ⟨w, hw, hlen⟩ := C1_wave_samples_length
    ⟨[0, 1, 2, 3, 4, 5, 6, 7, 8, 9, 10, 11], 48000, (-32768, 32767)⟩ 4 5
    (by decide) (by decide) (by decide) (by decide)
  rw [hw]
  simp [Except.map, hlen]

/-! ## Decode lemmas shared by the data-layer claims -/

/-- When the sample width divides the buffer length, the read loop
succeeds and decodes one sample per `k` bytes. -/
theorem readSamples_ok (k bits : ℕ) (hk : 0 < k) :
    ∀ (N : ℕ) (bytes : List ℕ), bytes.length = N → k ∣ N →
      ∃ s, readSamples k bits bytes = .ok s ∧ s.length = N / k := by
  intro N
  induction N using Nat.strong_induction_on with
  | _ N ih =>
    intro bytes hlen hdvd
    rw [readSamples]
    rw [if_neg (by omega : ¬ k = 0)]
    by_cases hemp : bytes.isEmpty
    · rw [if_pos hemp]
      have hnil : bytes = [] := List.isEmpty_iff.mp hemp
      refine ⟨[], rfl, ?_⟩
      rw [hnil] at hlen
      simp [← hlen]
    · rw [if_neg hemp]
      have hNpos : 0 < N := by
        rcases bytes with _ | ⟨b, bs⟩
        · simp at hemp
        · simp only [List.length_cons] at hlen
          omega
      have hkN : k ≤ N := Nat.le_of_dvd hNpos hdvd
      rw [if_neg (by omega : ¬ bytes.length < k)]
      have hdrop : (bytes.drop k).length = N - k := by
        simp [hlen]
      obtain ⟨s, hs, hslen⟩ := ih (N - k) (by omega) (bytes.drop k) hdrop
        (Nat.dvd_sub' hdvd dvd_rfl)
      rw [hs]
      refine ⟨_, rfl, ?_⟩
      simp only [List.length_cons, hslen]
      rw [Nat.div_eq_sub_div hk hkN]

/-- When the sample width does not divide the buffer length, the last
read returns a short chunk and `struct.unpack` raises. -/
theorem readSamples_error (k bits : ℕ) (hk : 0 < k) :
    ∀ (N : ℕ) (bytes : List ℕ), bytes.length = N → ¬ k ∣ N →
      readSamples k bits bytes = .error .structError := by
  intro N
  induction N using Nat.strong_induction_on with
  | _ N ih =>
    intro bytes hlen hdvd
    rw [readSamples]
    rw [if_neg (by omega : ¬ k = 0)]
    have hemp : ¬ bytes.isEmpty := by
      intro h
      rw [List.isEmpty_iff.mp h] at hlen
      exact hdvd (by simp [← hlen])
    rw [if_neg hemp]
    by_cases hshort : bytes.length < k
    · rw [if_pos hshort]
    · rw [if_neg hshort]
      have hdrop : (bytes.drop k).length = N - k := by simp [hlen]
      have hnd : ¬ k ∣ N - k := by
        intro h
        apply hdvd
        have hle : k ≤ N := by omega
        have : k ∣ (N - k) + k := Nat.dvd_add h dvd_rfl
        rwa [Nat.sub_add_cancel hle] at this
      rw [ih (N - k) (by omega) (bytes.drop k) hdrop hnd]

/-- Filtering a zip by a predicate on the first component has the same
length as filtering the first list. -/
theorem length_filter_zip_left {β : Type} (q : ℕ → Bool) :
    ∀ (as : List ℕ) (bs : List β), as.length = bs.length →
      ((as.zip bs).filter fun p => q p.1).length = (as.filter q).length := by
  intro as
  induction as with
  | nil => intro bs _; simp
  | cons a as ih =>
    intro bs hb
    rcases bs with _ | ⟨b, bs⟩
    · simp at hb
    · have hih := ih bs (by simpa using hb)
      simp only [List.zip] at hih ⊢
      simp only [List.zipWith_cons_cons, List.filter]
      by_cases hq : q a <;> simp [hq, hih]

/-- Exactly `S / nc` indices below `S` have residue `i` modulo `nc`,
plus one more when `i` is among the first `S % nc` residues. -/
theorem count_mod_range (nc i : ℕ) (hnc : 0 < nc) (hi : i < nc) :
    ∀ S : ℕ, ((List.range S).filter fun j => decide (j % nc = i)).length =
      S / nc + if i < S % nc then 1 else 0 := by
  intro S
  induction S with
  | zero => simp
  | succ S ih =>
    rw [List.range_succ, List.filter_append, List.length_append, ih]
    have hrlt : S % nc < nc := Nat.mod_lt _ hnc
    have hsd : (S + 1) / nc = S / nc + if nc ∣ S + 1 then 1 else 0 :=
      Nat.succ_div S nc
    have hqr : nc * (S / nc) + S % nc = S := Nat.div_add_mod S nc
    have hqr2 : nc * ((S + 1) / nc) + (S + 1) % nc = S + 1 :=
      Nat.div_add_mod (S + 1) nc
    by_cases hd : nc ∣ S + 1
    · have hdiv : (S + 1) / nc = S / nc + 1 := by rw [hsd, if_pos hd]
      have hmod0 : (S + 1) % nc = 0 := Nat.mod_eq_zero_of_dvd hd
      have hr1 : S % nc + 1 = nc := by
        have h1 : nc ∣ nc * (S / nc) + (S % nc + 1) := by
          have heq : nc * (S / nc) + (S % nc + 1) = S + 1 := by omega
          rw [heq]
          exact hd
        have h2 : nc ∣ S % nc + 1 :=
          (Nat.dvd_add_right (Dvd.intro (S / nc) rfl)).mp h1
        have h3 : nc ≤ S % nc + 1 := Nat.le_of_dvd (by omega) h2
        omega
      rw [hdiv, hmod0]
      by_cases hsi : S % nc = i <;> simp [List.filter, hsi] <;>
        first
        | omega
        | (split_ifs <;> omega)
    · have hdiv : (S + 1) / nc = S / nc := by rw [hsd, if_neg hd]; omega
      have hmod : (S + 1) % nc = S % nc + 1 := by
        rw [hdiv] at hqr2
        omega
      rw [hdiv, hmod]
      by_cases hsi : S % nc = i <;> simp [List.filter, hsi] <;>
        first
        | omega
        | (split_ifs <;> omega)

/-- Length of channel `i` after the round-robin assignment of `S`
decoded samples to `nc` channels. -/
theorem fillChannels_length (nc i : ℕ) (hnc : 0 < nc) (hi : i < nc)
    (samples : List ℤ) :
    ((fillChannels nc samples).getD i []).length =
      samples.length / nc + if i < samples.length % nc then 1 else 0 := by
  have hget : (fillChannels nc samples).getD i [] =
      ((samples.enum.filter fun p => decide (p.1 % nc = i)).map
        fun p => p.2) := by
    unfold fillChannels
    rw [List.getD_eq_getElem?_getD, List.getElem?_map, List.getElem?_range hi]
    rfl
  rw [hget, List.length_map]
  have henum : samples.enum = (List.range samples.length).zip samples :=
    List.enum_eq_zip_range samples
  rw [henum]
  rw [length_filter_zip_left (fun j => decide (j % nc = i))
    (List.range samples.length) samples (by simp)]
  exact count_mod_range nc i hnc hi samples.length

/-! ## Claim C2: decoded channel lengths -/

/-- C2, counterexample.  A 6-byte buffer in 16-bit 2-channel format
decodes into channels of lengths 2 and 1: the third decoded sample
(a trailing partial sample group filling only channel 0) is kept, not
dropped, so not every channel has length `floor(6 / (2 * 2)) = 1` and
the channels are not all the same length. -/
theorem C2_counterexample :
    (mkRawData [0, 0, 0, 0, 0, 0] ⟨2, 16, 48000⟩).map
        (fun r => r.channelData.map List.length) = .ok [2, 1] ∧
      (6 : ℕ) / (bytesPerSample ⟨2, 16, 48000⟩ * 2) = 1 := by
  constructor
  · simp [mkRawData, readSamples, bytesPerSample]
    decide
  · decide

/-- C2, amended: when `bytes_per_sample` divides the buffer length (and
the format has at least one channel), decoding succeeds and channel
`i` has length `floor(len / (bps * nc))`, plus one when `i < S % nc`
with `S = len / bps` the number of decoded samples: the trailing
partial sample group is distributed round-robin to the first `S % nc`
channels, not dropped, so channel lengths agree only when `nc ∣ S`. -/
theorem C2_channel_lengths (binary : List ℕ) (fmt : PyDataFormat)
    (hnc : 0 < fmt.numChannels) (hbps : 0 < bytesPerSample fmt)
    (hdvd : bytesPerSample fmt ∣ binary.length) :
    ∃ r, mkRawData binary fmt = .ok r ∧
      ∀ i : ℕ, i < fmt.numChannels →
        (r.channelData.getD i []).length =
          binary.length / (bytesPerSample fmt * fmt.numChannels) +
            if i < (binary.length / bytesPerSample fmt) % fmt.numChannels
            then 1 else 0 := by
  obtain ⟨s, hs, hslen⟩ := readSamples_ok (bytesPerSample fmt) fmt.lengthBits
    hbps binary.length binary rfl hdvd
  unfold mkRawData
  rw [if_neg (by omega), hs]
  refine ⟨_, rfl, ?_⟩
  intro i hi
  show ((fillChannels fmt.numChannels s).getD i []).length = _
  rw [fillChannels_length _ _ hnc hi, hslen, Nat.div_div_eq_div_mul]

/-- C2, witness: 4 bytes, 16-bit mono, two decoded samples in channel 0. -/
theorem C2_witness :
    (mkRawData [1, 0, 2, 0] ⟨1, 16, 48000⟩).map
      (fun r => (r.channelData.getD 0 []).length) = .ok 2 := by
  obtain ⟨r, hr, hlen⟩ := C2_channel_lengths [1, 0, 2, 0] ⟨1, 16, 48000⟩
    (by decide) (by decide) (by decide)
  have h0 := hlen 0 (by decide)
  rw [hr]
  simp only [Except.map, h0]
  decide

/-! ## Claim C7: decoding failure conditions -/

/-- C7, counterexample.  The empty buffer — length 0, not a positive
multiple of `bytes_per_sample`, zero decodable samples — decodes
successfully into an empty channel: `read` returns `''` at once, the
loop body never runs, and no error of any kind is raised (the code has
no `MalformedInputError` at all). -/
theorem C7_counterexample :
    mkRawData [] ⟨1, 16, 48000⟩ = .ok ⟨⟨1, 16, 48000⟩, [[]], 0⟩ := by
  simp [mkRawData, readSamples, bytesPerSample]
  decide

/-- C7, amended: decoding fails — with `struct.error` from
`struct.unpack` on a short chunk, there being no `MalformedInputError`
in the code — exactly when the buffer length is NOT a multiple of
`bytes_per_sample`; every exact multiple, including the empty buffer
with zero decodable samples, decodes successfully. -/
theorem C7_decode_error_iff (binary : List ℕ) (fmt : PyDataFormat)
    (hnc : 0 < fmt.numChannels) (hbps : 0 < bytesPerSample fmt) :
    (bytesPerSample fmt ∣ binary.length →
      ∃ r, mkRawData binary fmt = .ok r) ∧
    (¬ bytesPerSample fmt ∣ binary.length →
      mkRawData binary fmt = .error .structError) := by
  constructor
  · intro hdvd
    obtain ⟨s, hs, _⟩ := readSamples_ok (bytesPerSample fmt) fmt.lengthBits
      hbps binary.length binary rfl hdvd
    unfold mkRawData
    rw [if_neg (by omega), hs]
    exact ⟨_, rfl⟩
  · intro hnd
    unfold mkRawData
    rw [if_neg (by omega), readSamples_error (bytesPerSample fmt)
      fmt.lengthBits hbps binary.length binary rfl hnd]

/-- C7, witness: a 3-byte buffer fails with `struct.error`; a 2-byte
buffer decodes. -/
theorem C7_witness :
    mkRawData [1, 2, 3] ⟨1, 16, 48000⟩ = .error .structError ∧
      (mkRawData [1, 0] ⟨1, 16, 48000⟩).isOk = true := by
  have h1 := (C7_decode_error_iff [1, 2, 3] ⟨1, 16, 48000⟩ (by decide)
    (by decide)).2 (by decide)
  obtain ⟨r, hr⟩ := (C7_decode_error_iff [1, 0] ⟨1, 16, 48000⟩ (by decide)
    (by decide)).1 (by decide)
  exact ⟨h1, by rw [hr]; rfl⟩

/-! ## Grid lemmas shared by the view claims -/

/-- Well-formed view storage: `height` rows of `width` cells. -/
def GoodGrid (w h : ℕ) (g : List (List Char)) : Prop :=
  g.length = h ∧ ∀ row ∈ g, row.length = w

theorem pyListGet_nonneg {α : Type} (l : List α) (i : ℤ)
    (h0 : 0 ≤ i) (hl : i < l.length) :
    pyListGet l i = l.get? i.toNat := by
  unfold pyListGet
  rw [if_pos ⟨h0, hl⟩]

theorem pyListSet_nonneg {α : Type} (l : List α) (i : ℤ) (v : α)
    (h0 : 0 ≤ i) (hl : i < l.length) :
    pyListSet l i v = some (l.set i.toNat v) := by
  unfold pyListSet
  rw [if_pos ⟨h0, hl⟩]

theorem getD_replicate_elem {α : Type} (n m : ℕ) (a d : α) :
    (List.replicate n a).getD m d = if m < n then a else d := by
  rw [List.getD_eq_getElem?_getD, List.getElem?_replicate]
  by_cases h : m < n <;> simp [h]

theorem clearGrid_good (w h : ℕ) : GoodGrid w h (clearGrid w h) := by
  constructor
  · simp [clearGrid]
  · intro row hrow
    rw [List.eq_of_mem_replicate hrow]
    simp

theorem cellAt_clearGrid (w h : ℕ) (r c : ℕ) :
    cellAt (clearGrid w h) r c = ' ' := by
  unfold cellAt clearGrid
  rw [getD_replicate_elem]
  by_cases hr : r < h
  · rw [if_pos hr, getD_replicate_elem]
    by_cases hc : c < w
    · rw [if_pos hc]
    · rw [if_neg hc]
  · rw [if_neg hr]
    rfl

theorem cellAt_eq_getElem (g : List (List Char)) (r c : ℕ) :
    cellAt g r c = ((g[r]?.getD [])[c]?).getD ' ' := by
  unfold cellAt
  rw [List.getD_eq_getElem?_getD, List.getD_eq_getElem?_getD]

theorem vcGet_unfold (g : List (List Char)) (hh vx vy : ℤ) :
    vcGet g hh vx vy =
      (pyListGet g (hh - vy)).bind fun row => pyListGet row vx := rfl

/-- Reading an in-range view coordinate returns the storage cell at
`(half_height - view_y, view_x)`. -/
theorem vcGet_spec (w hh : ℕ) (g : List (List Char)) (vx vy : ℤ)
    (hg : GoodGrid w (2 * hh + 1) g)
    (hx0 : 0 ≤ vx) (hxw : vx < w) (hy : |vy| ≤ hh) :
    vcGet g hh vx vy = some (cellAt g (hh - vy).toNat vx.toNat) := by
  obtain ⟨hlen, hrows⟩ := hg
  have habs := abs_le.mp hy
  have hr0 : 0 ≤ (hh : ℤ) - vy := by omega
  have hrlt : (hh : ℤ) - vy < g.length := by
    rw [hlen]
    push_cast
    omega
  have hrN : ((hh : ℤ) - vy).toNat < g.length := by omega
  rw [vcGet_unfold]
  rw [pyListGet_nonneg g _ hr0 hrlt, List.get?_eq_getElem?,
    List.getElem?_eq_getElem hrN]
  simp only [Option.some_bind]
  have hrowlen : (g[((hh : ℤ) - vy).toNat]).length = w :=
    hrows _ (List.getElem_mem hrN)
  have hclt : vx < (g[((hh : ℤ) - vy).toNat] : List Char).length := by
    rw [hrowlen]
    exact_mod_cast hxw
  rw [pyListGet_nonneg _ vx hx0 hclt, List.get?_eq_getElem?]
  rw [cellAt_eq_getElem, List.getElem?_eq_getElem hrN]
  have hcN : vx.toNat < (g[((hh : ℤ) - vy).toNat] : List Char).length := by
    omega
  rw [Option.getD_some, List.getElem?_eq_getElem hcN]
  rfl

theorem vcSet_unfold (g : List (List Char)) (hh vx vy : ℤ) (v : Char) :
    vcSet g hh vx vy v =
      (pyListGet g (hh - vy)).bind fun row =>
        (pyListSet row vx v).bind fun row2 => pyListSet g (hh - vy) row2 := rfl

/-- Writing an in-range view coordinate succeeds, preserves the grid
shape, and changes exactly the one storage cell at `(half_height -
view_y, view_x)`. -/
theorem vcSet_spec (w hh : ℕ) (g : List (List Char)) (vx vy : ℤ) (v : Char)
    (hg : GoodGrid w (2 * hh + 1) g)
    (hx0 : 0 ≤ vx) (hxw : vx < w) (hy : |vy| ≤ hh) :
    ∃ g2, vcSet g (hh : ℤ) vx vy v = some g2 ∧ GoodGrid w (2 * hh + 1) g2 ∧
      ∀ r c : ℕ, cellAt g2 r c =
        if (r : ℤ) = (hh : ℤ) - vy ∧ (c : ℤ) = vx then v
        else cellAt g r c := by
  obtain ⟨hlen, hrows⟩ := hg
  have habs := abs_le.mp hy
  have hr0 : 0 ≤ (hh : ℤ) - vy := by omega
  have hrlt : (hh : ℤ) - vy < g.length := by
    rw [hlen]
    push_cast
    omega
  have hrN : ((hh : ℤ) - vy).toNat < g.length := by omega
  rw [vcSet_unfold, pyListGet_nonneg g _ hr0 hrlt, List.get?_eq_getElem?,
    List.getElem?_eq_getElem hrN]
  simp only [Option.some_bind]
  have hrowlen : (g[((hh : ℤ) - vy).toNat]).length = w :=
    hrows _ (List.getElem_mem hrN)
  have hclt : vx < (g[((hh : ℤ) - vy).toNat] : List Char).length := by
    rw [hrowlen]
    exact_mod_cast hxw
  rw [pyListSet_nonneg _ vx v hx0 hclt]
  simp only [Option.some_bind]
  rw [pyListSet_nonneg g _ _ hr0 hrlt]
  refine ⟨_, rfl, ⟨?_, ?_⟩, ?_⟩
  · rw [List.length_set]
    exact hlen
  · intro row hrow
    rcases List.mem_or_eq_of_mem_set hrow with hmem | heq
    · exact hrows _ hmem
    · rw [heq, List.length_set]
      exact hrowlen
  · intro r c
    have hrZ : (((((hh : ℤ) - vy).toNat : ℕ)) : ℤ) = (hh : ℤ) - vy :=
      Int.toNat_of_nonneg hr0
    rw [cellAt_eq_getElem, cellAt_eq_getElem, List.getElem?_set]
    by_cases hr : ((hh : ℤ) - vy).toNat = r
    · subst hr
      rw [if_pos rfl, if_pos hrN]
      simp only [Option.getD_some]
      rw [List.getElem?_set]
      by_cases hc : vx.toNat = c
      · subst hc
        have hcN : vx.toNat < (g[((hh : ℤ) - vy).toNat] : List Char).length := by
          omega
        rw [if_pos rfl, if_pos hcN]
        rw [if_pos ⟨hrZ, Int.toNat_of_nonneg hx0⟩]
        rfl
      · rw [if_neg hc, if_neg (fun h => hc (by omega))]
        rw [List.getElem?_eq_getElem hrN]
        rfl
    · rw [if_neg hr, if_neg (fun h => hr (by omega))]

/-! ## Claim C10: view-coordinate set/get round trip -/

/-- C10: on a well-formed grid, writing any in-range view coordinate
(`0 ≤ view_x < width`, `-half_height ≤ view_y ≤ half_height`) succeeds,
reading it back returns the written value, and every other in-range
view coordinate reads exactly as before the write. -/
theorem C10_set_get_roundtrip (w hh : ℕ) (g : List (List Char))
    (vx vy : ℤ) (v : Char)
    (hg : GoodGrid w (2 * hh + 1) g)
    (hx0 : 0 ≤ vx) (hxw : vx < w) (hylo : -(hh : ℤ) ≤ vy) (hyhi : vy ≤ hh) :
    ∃ g2, vcSet g (hh : ℤ) vx vy v = some g2 ∧
      vcGet g2 (hh : ℤ) vx vy = some v ∧
      ∀ vx2 vy2 : ℤ, 0 ≤ vx2 → vx2 < w → -(hh : ℤ) ≤ vy2 → vy2 ≤ hh →
        ¬(vx2 = vx ∧ vy2 = vy) →
        vcGet g2 (hh : ℤ) vx2 vy2 = vcGet g (hh : ℤ) vx2 vy2 := by
  have hy : |vy| ≤ (hh : ℤ) := abs_le.mpr ⟨by omega, hyhi⟩
  obtain ⟨g2, hset, hgood2, hcells⟩ := vcSet_spec w hh g vx vy v hg hx0 hxw hy
  refine ⟨g2, hset, ?_, ?_⟩
  · rw [vcGet_spec w hh g2 vx vy hgood2 hx0 hxw hy, hcells]
    rw [if_pos ⟨Int.toNat_of_nonneg (by omega), Int.toNat_of_nonneg hx0⟩]
  · intro vx2 vy2 h20 h2w h2lo h2hi hne
    have hy2 : |vy2| ≤ (hh : ℤ) := abs_le.mpr ⟨by omega, h2hi⟩
    rw [vcGet_spec w hh g2 vx2 vy2 hgood2 h20 h2w hy2,
      vcGet_spec w hh g vx2 vy2 hg h20 h2w hy2, hcells]
    rw [if_neg (fun h => hne ⟨by omega, by omega⟩)]

/-- C10, witness on a 3×3 grid: set view `(1, 0)`, read it back, and
check view `(0, 1)` is untouched. -/
theorem C10_witness :
    ((vcSet (clearGrid 3 3) ((1 : ℕ) : ℤ) 1 0 '*').bind
        fun g2 => vcGet g2 ((1 : ℕ) : ℤ) 1 0) = some '*' ∧
      ((vcSet (clearGrid 3 3) ((1 : ℕ) : ℤ) 1 0 '*').bind
        fun g2 => vcGet g2 ((1 : ℕ) : ℤ) 0 1) =
        vcGet (clearGrid 3 3) ((1 : ℕ) : ℤ) 0 1 := by
  obtain ⟨g2, hset, hget, hothers⟩ := C10_set_get_roundtrip 3 1
    (clearGrid 3 3) 1 0 '*' (clearGrid_good 3 3) (by norm_num) (by norm_num)
    (by norm_num) (by norm_num)
  have hother := hothers 0 1 (by norm_num) (by norm_num) (by norm_num)
    (by norm_num) (by norm_num)
  rw [hset]
  simp only [Option.some_bind]
  exact ⟨hget, hother⟩

/-! ## Claim C9: full characterisation of a drawn view -/

theorem drawLoop_cons (samples : List ℤ) (hh : ℕ) (sx sy : ℤ) (vx : ℕ)
    (rest : List ℕ) (g : List (List Char)) :
    drawLoop samples hh sx sy (vx :: rest) g =
      if ((vx : ℤ) + sx) < 0 then drawLoop samples hh sx sy rest g
      else if (samples.length : ℤ) ≤ (vx : ℤ) + sx then .ok g
      else if (hh : ℤ) < |samples.getD ((vx : ℤ) + sx).toNat 0 - sy| then
        drawLoop samples hh sx sy rest g
      else
        match vcSet g (hh : ℤ) (vx : ℤ)
            (samples.getD ((vx : ℤ) + sx).toNat 0 - sy) '*' with
        | some g2 => drawLoop samples hh sx sy rest g2
        | none => .error .indexError := rfl

/-- Invariant of the `draw_view` column loop: running it over a
strictly increasing list of in-range view columns marks exactly the
visible points of those columns and leaves every other cell as it
was. -/
theorem drawLoop_spec (samples : List ℤ) (w hh : ℕ) (sx sy : ℤ) :
    ∀ (vxs : List ℕ) (g : List (List Char)),
      vxs.Pairwise (· < ·) → (∀ vx ∈ vxs, vx < w) →
      GoodGrid w (2 * hh + 1) g →
      ∃ g2, drawLoop samples hh sx sy vxs g = .ok g2 ∧
        GoodGrid w (2 * hh + 1) g2 ∧
        ∀ r c : ℕ, cellAt g2 r c =
          if c ∈ vxs ∧ 0 ≤ (c : ℤ) + sx ∧ (c : ℤ) + sx < samples.length ∧
              |samples.getD ((c : ℤ) + sx).toNat 0 - sy| ≤ hh ∧
              (r : ℤ) = (hh : ℤ) - (samples.getD ((c : ℤ) + sx).toNat 0 - sy)
          then '*' else cellAt g r c := by
  intro vxs
  induction vxs with
  | nil =>
    intro g _ _ hg
    exact ⟨g, rfl, hg, fun r c => by simp⟩
  | cons vx rest ih =>
    intro g hpw hvw hg
    obtain ⟨hhead, htail⟩ := List.pairwise_cons.mp hpw
    have hvw2 : ∀ x ∈ rest, x < w := fun x hx =>
      hvw x (List.mem_cons_of_mem _ hx)
    by_cases h1 : ((vx : ℤ) + sx) < 0
    · obtain ⟨g2, hrun, hgood2, hcells2⟩ := ih g htail hvw2 hg
      refine ⟨g2, ?_, hgood2, fun r c => ?_⟩
      · rw [drawLoop_cons, if_pos h1]
        exact hrun
      · rw [hcells2 r c]
        refine if_congr ⟨fun ⟨hcm, hM⟩ => ⟨List.mem_cons_of_mem _ hcm, hM⟩,
          fun ⟨hcm, hM⟩ => ?_⟩ rfl rfl
        rcases List.mem_cons.mp hcm with rfl | hcm
        · exact absurd hM.1 (by omega)
        · exact ⟨hcm, hM⟩
    · by_cases h2 : (samples.length : ℤ) ≤ (vx : ℤ) + sx
      · refine ⟨g, ?_, hg, fun r c => ?_⟩
        · rw [drawLoop_cons, if_neg h1, if_pos h2]
        · have hcond : ¬(c ∈ vx :: rest ∧ 0 ≤ (c : ℤ) + sx ∧
              (c : ℤ) + sx < samples.length ∧
              |samples.getD ((c : ℤ) + sx).toNat 0 - sy| ≤ hh ∧
              (r : ℤ) = (hh : ℤ) -
                (samples.getD ((c : ℤ) + sx).toNat 0 - sy)) := by
            rintro ⟨hcm, h0, hlt, _⟩
            rcases List.mem_cons.mp hcm with rfl | hcm
            · omega
            · have hvc := hhead c hcm
              omega
          rw [if_neg hcond]
      · by_cases h3 : (hh : ℤ) < |samples.getD ((vx : ℤ) + sx).toNat 0 - sy|
        · obtain ⟨g2, hrun, hgood2, hcells2⟩ := ih g htail hvw2 hg
          refine ⟨g2, ?_, hgood2, fun r c => ?_⟩
          · rw [drawLoop_cons, if_neg h1, if_neg h2, if_pos h3]
            exact hrun
          · rw [hcells2 r c]
            refine if_congr ⟨fun ⟨hcm, hM⟩ => ⟨List.mem_cons_of_mem _ hcm, hM⟩,
              fun ⟨hcm, hM⟩ => ?_⟩ rfl rfl
            rcases List.mem_cons.mp hcm with rfl | hcm
            · exact absurd hM.2.2.1 (by omega)
            · exact ⟨hcm, hM⟩
        · have hx0 : (0 : ℤ) ≤ (vx : ℤ) := by positivity
          have hxw : (vx : ℤ) < w := by
            exact_mod_cast hvw vx (List.mem_cons_self vx rest)
          have hyle : |samples.getD ((vx : ℤ) + sx).toNat 0 - sy| ≤ (hh : ℤ) := by
            omega
          obtain ⟨gmid, hset, hgoodmid, hcellsmid⟩ :=
            vcSet_spec w hh g (vx : ℤ)
              (samples.getD ((vx : ℤ) + sx).toNat 0 - sy) '*' hg hx0 hxw hyle
          obtain ⟨g2, hrun, hgood2, hcells2⟩ := ih gmid htail hvw2 hgoodmid
          refine ⟨g2, ?_, hgood2, fun r c => ?_⟩
          · rw [drawLoop_cons, if_neg h1, if_neg h2, if_neg h3, hset]
            exact hrun
          · rw [hcells2 r c, hcellsmid r c]
            have hvxrest : vx ∉ rest := fun hmem => by
              have := hhead vx hmem
              omega
            by_cases hceq : c = vx
            · subst hceq
              rw [if_neg (fun h => hvxrest h.1)]
              refine if_congr ?_ rfl rfl
              constructor
              · rintro ⟨hr, -⟩
                exact ⟨List.mem_cons_self c rest, by omega, by omega, hyle, hr⟩
              · rintro ⟨-, -, -, -, hr⟩
                exact ⟨hr, rfl⟩
            · have hinner : ¬((r : ℤ) = (hh : ℤ) -
                  (samples.getD ((vx : ℤ) + sx).toNat 0 - sy) ∧
                  (c : ℤ) = (vx : ℤ)) := fun h => hceq (by omega)
              rw [if_neg hinner]
              refine if_congr ⟨fun ⟨hcm, hM⟩ =>
                ⟨List.mem_cons_of_mem _ hcm, hM⟩, fun ⟨hcm, hM⟩ => ?_⟩ rfl rfl
              rcases List.mem_cons.mp hcm with rfl | hcm
              · exact absurd rfl hceq
              · exact ⟨hcm, hM⟩

theorem ite_star_iff (p : Prop) [Decidable p] :
    ((if p then '*' else ' ') = '*') ↔ p := by
  by_cases hp : p <;> simp [hp]

/-- C9: after `draw_view(start_x, start_y)` on any sample list and any
start point (the view height being odd, `2 * half_height + 1`), a cell
at storage row `r`, column `c` is marked iff `0 ≤ c + start_x <
len(samples)`, the sample at `c + start_x` is within `half_height` of
`start_y`, and `r = half_height - (samples[c + start_x] - start_y)`;
every unmarked cell is blank (the render starts from a cleared grid),
and each column has at most one mark. -/
theorem C9_draw_view_cells (samples : List ℤ) (w hh : ℕ) (sx sy : ℤ) :
    ∃ g, drawView samples w (2 * hh + 1) sx sy = .ok g ∧
      (∀ r c : ℕ, r < 2 * hh + 1 → c < w →
        (cellAt g r c = '*' ↔
          (0 ≤ (c : ℤ) + sx ∧ (c : ℤ) + sx < samples.length ∧
           |samples.getD ((c : ℤ) + sx).toNat 0 - sy| ≤ hh ∧
           (r : ℤ) = (hh : ℤ) -
             (samples.getD ((c : ℤ) + sx).toNat 0 - sy))) ∧
        (cellAt g r c ≠ '*' → cellAt g r c = ' ')) ∧
      (∀ c r1 r2 : ℕ, cellAt g r1 c = '*' → cellAt g r2 c = '*' →
        r1 = r2) := by
  have hodd : ¬ (2 * hh + 1) % 2 = 0 := by omega
  have hhalf : (2 * hh + 1) >>> 1 = hh := by
    rw [Nat.shiftRight_eq_div_pow]
    omega
  obtain ⟨g, hrun, hgood, hcells⟩ := drawLoop_spec samples w hh sx sy
    (List.range w) (clearGrid w (2 * hh + 1)) (List.pairwise_lt_range w)
    (fun vx hvx => List.mem_range.mp hvx) (clearGrid_good _ _)
  have hcells2 : ∀ r c : ℕ, cellAt g r c =
      if c ∈ List.range w ∧ 0 ≤ (c : ℤ) + sx ∧
          (c : ℤ) + sx < samples.length ∧
          |samples.getD ((c : ℤ) + sx).toNat 0 - sy| ≤ hh ∧
          (r : ℤ) = (hh : ℤ) - (samples.getD ((c : ℤ) + sx).toNat 0 - sy)
      then '*' else ' ' := by
    intro r c
    rw [hcells r c, cellAt_clearGrid]
  refine ⟨g, ?_, ?_, ?_⟩
  · unfold drawView
    rw [if_neg hodd, hhalf]
    exact hrun
  · intro r c hr hc
    constructor
    · rw [hcells2 r c, ite_star_iff]
      constructor
      · rintro ⟨-, hM⟩
        exact hM
      · intro hM
        exact ⟨List.mem_range.mpr hc, hM⟩
    · intro hne
      rw [hcells2 r c]
      rw [hcells2 r c] at hne
      by_cases hcond : c ∈ List.range w ∧ 0 ≤ (c : ℤ) + sx ∧
          (c : ℤ) + sx < samples.length ∧
          |samples.getD ((c : ℤ) + sx).toNat 0 - sy| ≤ hh ∧
          (r : ℤ) = (hh : ℤ) - (samples.getD ((c : ℤ) + sx).toNat 0 - sy)
      · exact absurd (by rw [if_pos hcond]) hne
      · rw [if_neg hcond]
  · intro c r1 r2 h1 h2
    rw [hcells2 r1 c, ite_star_iff] at h1
    rw [hcells2 r2 c, ite_star_iff] at h2
    have hr1 := h1.2.2.2.2
    have hr2 := h2.2.2.2.2
    omega

/-- C9, witness: a single zero sample in a 1×3 view marks exactly the
centre-row cell of column 0. -/
theorem C9_witness :
    (drawView [0] 1 (2 * 1 + 1) 0 0).map (fun g => cellAt g 1 0) =
      .ok '*' := by
  obtain ⟨g, hrun, hcells, -⟩ := C9_draw_view_cells [0] 1 1 0 0
  rw [hrun]
  have hmark : cellAt g 1 0 = '*' :=
    ((hcells 1 0 (by omega) (by omega)).1).mpr
      ⟨by decide, by decide, by decide, by decide⟩
  simp [Except.map, hmark]

/-! ## Claim C4: the five-sample example view -/

/-- C4, counterexample.  For samples `[-2, -1, 0, 1, 2]` in a 5×5 view
with start `(0, 0)`, the claim puts a mark at storage `(0, 0)` (view
`(0, 2)`); the code computes `view_y = samples[0] - start_y = -2`, so
column 0 is marked at storage row 4, and storage `(0, 0)` is blank
while `(4, 0)` carries the mark. -/
theorem C4_counterexample :
    (drawView [-2, -1, 0, 1, 2] 5 5 0 0).map
      (fun g => (cellAt g 0 0, cellAt g 4 0)) = .ok (' ', '*') := by decide

/-- C4, amended: the render marks view coordinates `(0, -2), (1, -1),
(2, 0), (3, 1), (4, 2)`, i.e. storage rows `[4, 3, 2, 1, 0]` at
columns `[0, 1, 2, 3, 4]` — an ascending diagonal (low value bottom
left, high value top right), the mirror image of the claimed
descending one. -/
theorem C4_ascending_diagonal :
    drawView [-2, -1, 0, 1, 2] 5 5 0 0 =
      .ok [[' ', ' ', ' ', ' ', '*'],
           [' ', ' ', ' ', '*', ' '],
           [' ', ' ', '*', ' ', ' '],
           [' ', '*', ' ', ' ', ' '],
           ['*', ' ', ' ', ' ', ' ']] := by decide

/-! ## Claim C5: boundary refusals leave the display state unchanged -/

/-- C5: a zoom-time-down at time level 0, a zoom-time-up whose new
sample length `int(new_scale * width)` exceeds the raw sample count,
and a zoom-value-down at value level 0 are all refused with the entire
display state — levels, sample length, quantize levels, start point,
current `Waveform` and current view content — returned exactly as it
was (the Python methods log a warning and `return` before any field is
assigned or any rebuild happens). -/
theorem C5_boundary_refusal_state_unchanged (d : WVDisplay) :
    (d.timeLevel = 0 → changeTimeLevel d .down = .ok d) ∧
    ((d.rawData.samples.length : ℤ) <
        pyInt (timeScale (d.timeLevel + 1) * (d.width : ℚ)) →
      changeTimeLevel d .up = .ok d) ∧
    (d.valueLevel = 0 → changeValueLevel d .down = .ok d) := by
  refine ⟨fun h => ?_, fun h => ?_, fun h => ?_⟩
  · simp [changeTimeLevel, h]
  · simp only [changeTimeLevel]
    rw [if_pos h]
  · simp [changeValueLevel, h]

/-- A concrete display at both refusal boundaries: levels 0 and only 4
raw samples under a width-5 view (zooming in would need
`int(1.1 * 5) = 5 > 4` samples). -/
def refusalDisplay : WVDisplay :=
  { rawData := ⟨[0, 0, 0, 0], 48000, (-32768, 32767)⟩
    width := 5
    height := 5
    timeLevel := 0
    sampleLength := 5
    valueLevel := 0
    quantizeLevels := 5
    startX := 0
    startY := 0
    wave := ⟨5, 5, 1, 1, [0, 0, 0, 0, 0]⟩
    viewContent := clearGrid 5 5 }

/-- C5, witness: all three refusals on `refusalDisplay`. -/
theorem C5_witness :
    changeTimeLevel refusalDisplay .down = .ok refusalDisplay ∧
      changeTimeLevel refusalDisplay .up = .ok refusalDisplay ∧
      changeValueLevel refusalDisplay .down = .ok refusalDisplay := by
  obtain ⟨h1, h2, h3⟩ := C5_boundary_refusal_state_unchanged refusalDisplay
  refine ⟨h1 rfl, h2 ?_, h3 rfl⟩
  show (4 : ℤ) < pyInt (timeScale (0 + 1) * (5 : ℚ))
  norm_num [timeScale, pyInt]

/-! ## Claim C6: the range helpers and the range displays -/

/-- C6: the (spec-modelled, missing from src/waveview) helpers return
`visible_value_range(start_y) = (start_y - half_height, start_y +
half_height)` and `visible_index_range(start_x) = (max(start_x, 0),
min(start_x + width - 1, len(samples) - 1))`, and
`WaveViewDisplay.get_value_range` / `get_time_range` — the functions
the value and time displays are refreshed from after every transition
— are exactly those helpers scaled by the quantization factor,
respectively by the down-sample factor over the sampling rate. -/
theorem C6_range_helpers (d : WVDisplay) :
    getLevelRange ((d.height >>> 1 : ℕ) : ℤ) d.startY =
      (d.startY - ((d.height >>> 1 : ℕ) : ℤ),
       d.startY + ((d.height >>> 1 : ℕ) : ℤ)) ∧
    (∀ (width samplesLength : ℕ) (startX : ℤ),
      getTimeIndexRange width samplesLength startX =
        (max startX 0, min (startX + width - 1) ((samplesLength : ℤ) - 1))) ∧
    getValueRange d =
      (((d.startY - ((d.height >>> 1 : ℕ) : ℤ) : ℤ) : ℚ) *
         d.wave.quantizationFactor,
       ((d.startY + ((d.height >>> 1 : ℕ) : ℤ) : ℤ) : ℚ) *
         d.wave.quantizationFactor) ∧
    getTimeRange d =
      (((max d.startX 0 * (d.wave.downSampleFactor : ℤ) : ℤ) : ℚ) /
         (d.rawData.samplingRate : ℚ),
       ((min (d.startX + d.width - 1) ((d.wave.waveSamples.length : ℤ) - 1) *
           (d.wave.downSampleFactor : ℤ) : ℤ) : ℚ) /
         (d.rawData.samplingRate : ℚ)) :=
  ⟨rfl, fun _ _ _ => rfl, rfl, rfl⟩

end WaveViewer
